import Mathlib

/-!
Verification development for the Email Finder backend (`app.py`).

The Python source is shallowly embedded: pure string manipulation is
translated to functions on `String` / `List Char`; the network, the HTML
parser and the wall clock are abstracted as oracles passed to the embedded
functions.  Python's `set` of e-mail addresses is modelled as a
duplicate-free list in insertion order (`addEmail` is `set.add`); only
membership and cardinality of the set are relied upon, both of which the
list model reproduces exactly.  Python's `str.lower` is modelled on the
ASCII range (`Char.toLower`), which is the range exercised by the program's
string constants.
-/

namespace EmailFinder

/-! ### Character and list utilities -/

/-- Python `str.lower`, per character (ASCII case mapping). -/
def lowerStr (s : String) : String := ⟨s.data.map Char.toLower⟩

/-- The ASCII whitespace characters removed by Python's `str.strip()`. -/
def pyIsSpace (c : Char) : Bool :=
  c = ' ' || c = '\t' || c = '\n' || c = '\r' || c = '\x0b' || c = '\x0c'

/-- Python `str.strip()` on a character list: drop leading and trailing
whitespace. -/
def pyStripL (l : List Char) : List Char :=
  ((l.dropWhile pyIsSpace).reverse.dropWhile pyIsSpace).reverse

/-- Substring test, Python's `pat in s` on strings, over character lists. -/
def containsL (p : List Char) : List Char → Bool
  | [] => p.isPrefixOf []
  | c :: rest => p.isPrefixOf (c :: rest) || containsL p rest

/-- Suffix test over character lists. -/
def endsWithL (p l : List Char) : Bool := p.reverse.isPrefixOf l.reverse

/-! ### `clean_domain` (app.py lines 27-33)

`re.sub(r'^https?://', '', d)` removes one leading `http://` or `https://`
(the regex is case-sensitive, there is no `re.IGNORECASE` flag);
`re.sub(r'^www\.', '', d)` removes one leading `www.`;
`re.sub(r'/$', '', d)` removes one trailing `/`. -/

/-- One application of `re.sub(r'^https?://', '', ·)`. -/
def subScheme (l : List Char) : List Char :=
  if ("http://".data).isPrefixOf l then l.drop 7
  else if ("https://".data).isPrefixOf l then l.drop 8
  else l

/-- One application of `re.sub(r'^www\.', '', ·)`. -/
def subWww (l : List Char) : List Char :=
  if ("www.".data).isPrefixOf l then l.drop 4 else l

/-- One application of `re.sub(r'/$', '', ·)`. -/
def subSlash (l : List Char) : List Char :=
  if endsWithL (['/']) l then l.dropLast else l

/-- `clean_domain` from `app.py`: strip, remove one scheme layer, one
`www.` layer, one trailing slash. -/
def clean_domain (s : String) : String :=
  ⟨subSlash (subWww (subScheme (pyStripL s.data)))⟩

/-! Specification-side formulation of the (amended) claim C3, written as
pattern matches on the leading and trailing characters rather than as
prefix tests, for comparison with the source embedding above.  The scheme
and `www.` patterns are the lower-case ones: the source's regexes are
case-sensitive. -/

/-- Claim-side scheme stripping: remove a literal leading `http://` or
`https://`, lower-case only. -/
def schemeSpecStep : List Char → List Char
  | 'h' :: 't' :: 't' :: 'p' :: ':' :: '/' :: '/' :: r => r
  | 'h' :: 't' :: 't' :: 'p' :: 's' :: ':' :: '/' :: '/' :: r => r
  | l => l

/-- Claim-side `www.` stripping. -/
def wwwSpecStep : List Char → List Char
  | 'w' :: 'w' :: 'w' :: '.' :: r => r
  | l => l

/-- Claim-side trailing-slash stripping: remove one final `/`. -/
def slashSpecStep (l : List Char) : List Char :=
  match l.reverse with
  | '/' :: r => r.reverse
  | _ => l

/-- The amended claim C3's pipeline: trim surrounding whitespace, then the
three stripping steps in order. -/
def cleanDomainSpec (s : String) : String :=
  ⟨slashSpecStep (wwwSpecStep (schemeSpecStep (pyStripL s.data)))⟩

/-! ### `extract_emails_from_text` (app.py lines 35-53)

The regex scan `re.findall(email_pattern, text)` is abstracted: the list of
raw regex matches is the function's input (each match contains exactly one
`@`, since neither character class of the pattern matches `@`).  The Python
`set` of kept addresses is rendered as a deduplicated list; membership
agrees with the source, iteration order of a Python set is not modelled. -/

/-- The generic local-part markers tested by the source with
`any(x in email_lower for x in [...])`. -/
def genericMarkers : List String :=
  ["info@", "contact@", "admin@", "support@", "hello@", "sales@", "press@", "team@"]

/-- `domain.split('.')[0]`: the part of the domain before the first dot. -/
def domainBase (domain : String) : String :=
  ⟨domain.data.takeWhile (fun c => c != '.')⟩

/-- The relevance filter of `extract_emails_from_text`, applied to the
lower-cased candidate: keep it iff it contains the domain, or contains
`domain_base`, or contains one of the generic markers as a substring. -/
def keepEmail (domain emailLower : String) : Bool :=
  containsL domain.data emailLower.data ||
  containsL (domainBase domain).data emailLower.data ||
  genericMarkers.any (fun x => containsL x.data emailLower.data)

/-- `extract_emails_from_text`: lower-case each regex match, keep those
passing the relevance filter, return the set (as a duplicate-free list). -/
def extract_emails_from_text (textEmails : List String) (domain : String) : List String :=
  ((textEmails.map lowerStr).filter (keepEmail domain)).dedup

/-- The local part of an address: everything before the first `@`. -/
def localPartOf (e : String) : String := ⟨e.data.takeWhile (fun c => c != '@')⟩

/-- The generic local-parts named by the specification. -/
def genericLocals : List String :=
  ["info", "contact", "admin", "support", "hello", "sales", "press", "team"]

/-- The keep-condition exactly as claim C4 words it: contains the domain,
or contains the domain's first label, or the local part equals one of the
generic local-parts. -/
def claimedKeep (domain emailLower : String) : Bool :=
  containsL domain.data emailLower.data ||
  containsL (domainBase domain).data emailLower.data ||
  genericLocals.any (fun g => localPartOf emailLower == g)

/-! ### `scrape_website` (app.py lines 55-114)

One fetched page is abstracted to the three views the code reads from the
parsed soup: the `href` values of `mailto:` anchors, the raw regex matches
of the visible text, and the `data-email` attribute values.  The network is
an oracle from URL to `FetchResult`, whose constructors mirror the source's
control flow: a completed response with an HTTP status, or one of the three
`except` clauses (timeout, `RequestException`, any other exception).
`time.sleep` has no observable effect in the model. -/

/-- The parsed content of one fetched page. -/
structure Page where
  mailtoHrefs : List String
  textEmails : List String
  dataEmails : List String
deriving DecidableEq

/-- Result of `requests.get` on one URL. -/
inductive FetchResult where
  | resp (status : Nat) (page : Page)
  | timeoutExc
  | requestExc (msg : String)
  | otherExc (msg : String)
deriving DecidableEq

/-- Python `set.add` on the insertion-order list model of a set. -/
def addEmail (s : List String) (e : String) : List String :=
  if e ∈ s then s else s ++ [e]

/-- `'mailto:'` as a character list. -/
def mailtoPat : List Char := "mailto:".data

/-- Python `str.replace('mailto:', '')`: remove every occurrence. -/
def removeAllMailto : List Char → List Char
  | [] => []
  | c :: rest =>
    if mailtoPat.isPrefixOf (c :: rest) then removeAllMailto ((c :: rest).drop 7)
    else c :: removeAllMailto rest
termination_by l => l.length
decreasing_by
  · simp only [List.length_drop, List.length_cons]; omega
  · simp only [List.length_cons]; omega

/-- `link.get('href').replace('mailto:', '').split('?')[0]`, lower-cased. -/
def mailtoAddr (href : String) : String :=
  lowerStr ⟨(removeAllMailto href.data).takeWhile (fun c => c != '?')⟩

/-- Processing of one HTTP-200 page body (app.py lines 81-96): add the
mailto addresses, the filtered text matches, and every `data-email`
attribute value (lower-cased, unconditionally) to the accumulated set. -/
def processPage (dom : String) (page : Page) (acc : List String) : List String :=
  let a1 := page.mailtoHrefs.foldl (fun a h => addEmail a (mailtoAddr h)) acc
  let a2 := (extract_emails_from_text page.textEmails dom).foldl (fun a e => addEmail a e) a1
  page.dataEmails.foldl (fun a d => addEmail a (lowerStr d)) a2

/-- `f"https://{clean_dom}{path}"`. -/
def urlOf (dom p : String) : String := "https://" ++ dom ++ p

/-- The two candidate paths probed per domain. -/
def paths : List String := ["", "/contatti"]

/-- The path loop of `scrape_website`.  Returns the accumulated set and the
list of paths actually fetched.  A response with status 200 is processed
and triggers the early stop when the set reaches 3 addresses; any other
status and any of the three exception classes leave the set unchanged and
move on to the next path. -/
def scrapeGo (fetch : String → FetchResult) (dom : String) :
    List String → List String → List String × List String
  | acc, [] => (acc, [])
  | acc, p :: rest =>
    match fetch (urlOf dom p) with
    | .resp status page =>
      if status = 200 then
        let acc2 := processPage dom page acc
        if 3 ≤ acc2.length then (acc2, [p])
        else
          let r := scrapeGo fetch dom acc2 rest
          (r.1, p :: r.2)
      else
        let r := scrapeGo fetch dom acc rest
        (r.1, p :: r.2)
    | _ =>
      let r := scrapeGo fetch dom acc rest
      (r.1, p :: r.2)

/-- `scrape_website`: clean the domain, probe the candidate paths, return
the collected set (and, in this model, the trace of fetched paths). -/
def scrape_website (fetch : String → FetchResult) (domain : String) :
    List String × List String :=
  scrapeGo fetch (clean_domain domain) [] paths

/-- A fetch outcome the source treats as a failure for its path: a non-200
status or any of the three caught exception classes. -/
def isFailure : FetchResult → Bool
  | .resp status _ => status != 200
  | _ => true

/-! ### `find_emails` (app.py lines 130-197)

`scrape_website` as seen by the scheduler is abstracted to an oracle from
the cleaned domain to either a result set or a raised exception message
(the `except` branch of the per-domain `try`).  The wall clock read at the
top of each loop iteration (`time.time() - start_time`) is an oracle from
the iteration index to a rational number, compared against the global
deadline `T` (`REQUEST_TIMEOUT` in the source).  The response's timing
fields (`elapsed_time`, `avg_time_per_domain`) are measured after the loop
and are not modelled. -/

/-- One per-domain result object appended to `results`. -/
structure Outcome where
  domain : String
  emails : List String
  count : Nat
  status : String
  error : Option String
deriving DecidableEq

/-- The outcome recorded for a domain not processed before the deadline. -/
def timeoutOutcome (d : String) : Outcome :=
  { domain := clean_domain d, emails := [], count := 0, status := "timeout",
    error := some ("Timeout globale raggiunto") }

/-- The outcome recorded when `scrape_website` returns normally. -/
def successOutcome (cd : String) (emails : List String) : Outcome :=
  { domain := cd, emails := emails, count := emails.length,
    status := if emails.isEmpty then "empty" else "success", error := none }

/-- The outcome recorded when the per-domain `try` catches an exception. -/
def errorOutcome (cd msg : String) : Outcome :=
  { domain := cd, emails := [], count := 0, status := "error", error := some msg }

/-- Behaviour of one `scrape_website(clean_dom)` call as the scheduler sees
it: a duplicate-free result list, or an exception message. -/
inductive ScrapeResult where
  | ok (emails : List String)
  | raised (msg : String)
deriving DecidableEq

/-- The body of one non-timed-out loop iteration of `find_emails`. -/
def domainOutcome (scrape : String → ScrapeResult) (d : String) : Outcome :=
  match scrape (clean_domain d) with
  | .ok emails => successOutcome (clean_domain d) emails
  | .raised m => errorOutcome (clean_domain d) m

/-- The domain loop of `find_emails` starting at iteration index `idx`:
before each domain the elapsed clock is compared against the deadline; when
it fires, every remaining domain (the current one included) is appended as
a timeout outcome and the loop ends. -/
def processDomains (scrape : String → ScrapeResult) (elapsed : Nat → ℚ) (T : ℚ) :
    Nat → List String → List Outcome
  | _, [] => []
  | idx, d :: rest =>
    if T < elapsed idx then (d :: rest).map timeoutOutcome
    else domainOutcome scrape d :: processDomains scrape elapsed T (idx + 1) rest

/-- The trace of `scrape_website` invocations made by the domain loop. -/
def scrapeCalls (elapsed : Nat → ℚ) (T : ℚ) : Nat → List String → List String
  | _, [] => []
  | idx, d :: rest =>
    if T < elapsed idx then []
    else clean_domain d :: scrapeCalls elapsed T (idx + 1) rest

/-- A client-error JSON payload; fields absent from the Python dict are
`none`. -/
structure ErrorPayload where
  error : String
  received : Option Nat := none
  max_allowed : Option Nat := none
  suggestion : Option String := none
deriving DecidableEq

/-- The success response body (timing fields omitted, see above). -/
structure BatchOk where
  results : List Outcome
  total_emails : Nat
  processed : Nat
deriving DecidableEq

/-- The response of the batch endpoint: a client error with an HTTP status,
or the success body. -/
inductive BatchResponse where
  | clientError (payload : ErrorPayload) (httpStatus : Nat)
  | ok (body : BatchOk)
deriving DecidableEq

/-- `MAX_DOMAINS_PER_REQUEST` (app.py line 16). -/
def MAX_DOMAINS_PER_REQUEST : Nat := 10

/-- `sum(r['count'] for r in results)`. -/
def totalEmails (res : List Outcome) : Nat := (res.map (fun o => o.count)).sum

/-- The `/api/find-emails` handler: validation, the domain loop, and the
response.  The second component is the trace of `scrape_website` calls;
both rejection branches return before the loop starts, so their trace is
empty. -/
def find_emails (scrape : String → ScrapeResult) (elapsed : Nat → ℚ) (T : ℚ)
    (domains : List String) : BatchResponse × List String :=
  if domains.isEmpty then
    (.clientError { error := "Nessun dominio fornito" } 400, [])
  else if MAX_DOMAINS_PER_REQUEST < domains.length then
    (.clientError
      { error := "Troppi domini. Massimo 10 per richiesta.",
        received := some domains.length,
        max_allowed := some MAX_DOMAINS_PER_REQUEST,
        suggestion := some ("Dividi la lista in più batch dal frontend") } 400, [])
  else
    (.ok { results := processDomains scrape elapsed T 0 domains,
           total_emails := totalEmails (processDomains scrape elapsed T 0 domains),
           processed := (processDomains scrape elapsed T 0 domains).length },
     scrapeCalls elapsed T 0 domains)

/-! ### `download_csv` (app.py lines 200-218)

The CSV body is modelled as its list of rows, each row a list of cells. -/

/-- One entry of the posted `results` array; `emails` and `status` are read
with `.get` and may be absent. -/
structure CsvResult where
  domain : String
  emails : Option (List String)
  status : Option String
deriving DecidableEq

/-- The rows written for one result: one row per e-mail carrying the
result's status, or a single sentinel row when the e-mail list is empty. -/
def csvRowsFor (r : CsvResult) : List (List String) :=
  let emails := r.emails.getD []
  let status := r.status.getD "unknown"
  if emails.isEmpty then [[r.domain, "Nessuna email trovata", status]]
  else emails.map (fun e => [r.domain, e, status])

/-- The `/api/download-csv` handler: header row followed by the rows of
each posted result in order. -/
def download_csv (results : List CsvResult) : List (List String) :=
  ["Dominio", "Email", "Status"] :: (results.map csvRowsFor).flatten

/-! ### Concrete fixtures used by witness instantiations -/

/-- A scrape oracle that finds nothing and never raises. -/
def w1Scrape : String → ScrapeResult := fun _ => ScrapeResult.ok []

/-- A clock whose reading at check `n` is `n` seconds. -/
def w1Elapsed : Nat → ℚ := fun n => (n : ℚ)

/-- A page whose only content is three `data-email` attributes. -/
def c6Page : Page :=
  { mailtoHrefs := [], textEmails := [], dataEmails := ["A@x.com", "b@x.com", "c@x.com"] }

/-- A network where only the homepage of `x.com` answers. -/
def c6Fetch : String → FetchResult :=
  fun u => if u = "https://x.com" then FetchResult.resp 200 c6Page else FetchResult.timeoutExc

/-- A network where every request times out. -/
def c7Fetch : String → FetchResult := fun _ => FetchResult.timeoutExc

/-- A page carrying a `data-email` value unrelated to any queried domain. -/
def c5Page : Page :=
  { mailtoHrefs := [], textEmails := ["zz@other.net"], dataEmails := ["NOISE@Else.org"] }

/-- Eleven domains: one more than the configured maximum. -/
def w8Domains : List String :=
  ["d1", "d2", "d3", "d4", "d5", "d6", "d7", "d8", "d9", "d10", "d11"]

/-- A posted CSV entry with an empty e-mail list. -/
def wCsv : CsvResult := { domain := "x.com", emails := some [], status := some ("empty") }

/-- A scrape oracle returning a single address. -/
def w10Scrape : String → ScrapeResult := fun _ => ScrapeResult.ok (["a@b.co"])

/-- A clock that never advances. -/
def w10Elapsed : Nat → ℚ := fun _ => 0

/-- The outcome recorded for `b.co` under `w10Scrape`. -/
def w10Outcome : Outcome :=
  { domain := "b.co", emails := ["a@b.co"], count := 1, status := "success", error := none }

/-! ### Helper lemmas: list utilities -/

theorem isPrefixOf_iff (p l : List Char) : p.isPrefixOf l = true ↔ ∃ t, p ++ t = l := by
  rw [List.isPrefixOf_iff_prefix]
  exact Iff.rfl

theorem containsL_iff (p l : List Char) : containsL p l = true ↔ ∃ a b, a ++ p ++ b = l := by
  induction l with
  | nil =>
    rw [containsL, isPrefixOf_iff]
    constructor
    · rintro ⟨t, ht⟩
      exact ⟨[], t, by simpa using ht⟩
    · rintro ⟨a, b, h⟩
      obtain ⟨h1, h2⟩ := List.append_eq_nil.mp h
      exact ⟨b, by simp [List.append_eq_nil.mp h1] at h2 ⊢; exact (List.append_eq_nil.mp h1).2 ▸ h2⟩
  | cons c rest ih =>
    rw [containsL, Bool.or_eq_true, isPrefixOf_iff, ih]
    constructor
    · rintro (⟨t, ht⟩ | ⟨a, b, h⟩)
      · exact ⟨[], t, by simpa using ht⟩
      · exact ⟨c :: a, b, by simp [h]⟩
    · rintro ⟨a, b, h⟩
      cases a with
      | nil =>
        exact Or.inl ⟨b, by simpa using h⟩
      | cons a0 as =>
        rw [List.cons_append, List.cons_append, List.cons.injEq] at h
        exact Or.inr ⟨as, b, h.2⟩

theorem endsWithL_iff (p l : List Char) : endsWithL p l = true ↔ ∃ a, a ++ p = l := by
  rw [endsWithL, isPrefixOf_iff]
  constructor
  · rintro ⟨t, ht⟩
    refine ⟨t.reverse, ?_⟩
    have h2 := congrArg List.reverse ht
    simpa using h2
  · rintro ⟨a, rfl⟩
    exact ⟨a.reverse, by simp⟩

theorem mem_addEmail (s : List String) (e x : String) :
    x ∈ addEmail s e ↔ x ∈ s ∨ x = e := by
  by_cases h : e ∈ s
  · simp only [addEmail, if_pos h]
    constructor
    · exact Or.inl
    · rintro (hx | rfl)
      · exact hx
      · exact h
  · simp [addEmail, if_neg h]

theorem nodup_addEmail (s : List String) (e : String) (hs : s.Nodup) :
    (addEmail s e).Nodup := by
  by_cases h : e ∈ s
  · simpa only [addEmail, if_pos h] using hs
  · rw [addEmail, if_neg h, List.nodup_append]
    exact ⟨hs, List.nodup_singleton e, by simpa [List.disjoint_singleton] using h⟩

theorem mem_foldl_addEmail_mono {α : Type} (f : α → String) (l : List α)
    (acc : List String) (x : String) (hx : x ∈ acc) :
    x ∈ l.foldl (fun a y => addEmail a (f y)) acc := by
  induction l generalizing acc with
  | nil => exact hx
  | cons y ys ih =>
    exact ih (addEmail acc (f y)) ((mem_addEmail acc (f y) x).mpr (Or.inl hx))

theorem mem_foldl_addEmail_self {α : Type} (f : α → String) (l : List α)
    (acc : List String) (d : α) (hd : d ∈ l) :
    f d ∈ l.foldl (fun a y => addEmail a (f y)) acc := by
  induction l generalizing acc with
  | nil => cases hd
  | cons y ys ih =>
    rcases List.mem_cons.mp hd with rfl | hd2
    · exact mem_foldl_addEmail_mono f ys (addEmail acc (f d))
        (f d) ((mem_addEmail acc (f d) (f d)).mpr (Or.inr rfl))
    · exact ih (addEmail acc (f y)) hd2

theorem nodup_foldl_addEmail {α : Type} (f : α → String) (l : List α)
    (acc : List String) (h : acc.Nodup) :
    (l.foldl (fun a y => addEmail a (f y)) acc).Nodup := by
  induction l generalizing acc with
  | nil => exact h
  | cons y ys ih => exact ih (addEmail acc (f y)) (nodup_addEmail acc (f y) h)

/-! ### Helper lemmas: `clean_domain` -/

theorem subScheme_eq_spec (l : List Char) : subScheme l = schemeSpecStep l := by
  by_cases h1 : ("http://".data).isPrefixOf l = true
  · obtain ⟨t, ht⟩ := (isPrefixOf_iff _ _).mp h1
    subst ht
    rw [subScheme, if_pos h1]
    rfl
  · by_cases h2 : ("https://".data).isPrefixOf l = true
    · obtain ⟨t, ht⟩ := (isPrefixOf_iff _ _).mp h2
      subst ht
      rw [subScheme, if_neg h1, if_pos h2]
      rfl
    · rw [subScheme, if_neg h1, if_neg h2]
      rw [schemeSpecStep.eq_def]
      split
      · rename_i r
        exact absurd (by simp [List.isPrefixOf]) h1
      · rename_i r
        exact absurd (by simp [List.isPrefixOf]) h2
      · rfl

theorem subWww_eq_spec (l : List Char) : subWww l = wwwSpecStep l := by
  by_cases h1 : ("www.".data).isPrefixOf l = true
  · obtain ⟨t, ht⟩ := (isPrefixOf_iff _ _).mp h1
    subst ht
    rw [subWww, if_pos h1]
    rfl
  · rw [subWww, if_neg h1]
    rw [wwwSpecStep.eq_def]
    split
    · rename_i r
      exact absurd (by simp [List.isPrefixOf]) h1
    · rfl

theorem subSlash_eq_spec (l : List Char) : subSlash l = slashSpecStep l := by
  rw [subSlash, slashSpecStep]
  cases hrev : l.reverse with
  | nil =>
    have hl : l = [] := by simpa using congrArg List.reverse hrev
    subst hl
    simp [endsWithL]
  | cons c r =>
    have hl : l = r.reverse ++ [c] := by
      have h2 := congrArg List.reverse hrev
      simpa using h2
    by_cases hc : c = '/'
    · subst hc
      subst hl
      have he : endsWithL (['/']) (r.reverse ++ ['/']) = true :=
        (endsWithL_iff _ _).mpr ⟨r.reverse, rfl⟩
      rw [if_pos he]
      simp
    · have he : endsWithL (['/']) l = false := by
        rw [Bool.eq_false_iff]
        intro hcontra
        obtain ⟨a, ha⟩ := (endsWithL_iff _ _).mp hcontra
        have h4 : l.reverse = '/' :: a.reverse := by
          rw [← ha]
          simp
        rw [hrev] at h4
        injection h4 with h5 h6
        exact hc h5
      rw [he]
      simp only [Bool.false_eq_true, if_false]
      split
      · rename_i r2 heq
        injection heq with h5 h6
        exact absurd h5 hc
      · rfl

/-! ### Helper lemmas: the relevance filter -/

theorem count_at_one_decomp (l : List Char) (h : l.count '@' = 1) :
    ∃ a b, a ++ '@' :: b = l ∧ '@' ∉ a ∧ '@' ∉ b := by
  induction l with
  | nil => simp at h
  | cons c rest ih =>
    by_cases hc : c = '@'
    · subst hc
      have h0 : rest.count '@' = 0 := by
        rw [List.count_cons] at h
        simpa using h
      exact ⟨[], rest, rfl, by simp, List.count_eq_zero.mp h0⟩
    · have h1 : rest.count '@' = 1 := by
        rw [List.count_cons] at h
        simpa [hc] using h
      obtain ⟨a, b, hab, ha, hb⟩ := ih h1
      refine ⟨c :: a, b, by simp [hab], ?_, hb⟩
      simp only [List.mem_cons, not_or]
      exact ⟨fun h2 => hc h2.symm, ha⟩

theorem at_decomp_unique (a : List Char) :
    ∀ (u b v : List Char), '@' ∉ a → '@' ∉ u →
      a ++ '@' :: b = u ++ '@' :: v → a = u ∧ b = v := by
  induction a with
  | nil =>
    intro u b v _ hu h
    cases u with
    | nil =>
      simp only [List.nil_append] at h
      injection h with h1 h2
      exact ⟨rfl, h2⟩
    | cons x xs =>
      simp only [List.nil_append, List.cons_append] at h
      injection h with h1 h2
      exact absurd (h1 ▸ List.mem_cons_self x xs) hu
  | cons c cs ih =>
    intro u b v ha hu h
    cases u with
    | nil =>
      simp only [List.cons_append, List.nil_append] at h
      injection h with h1 h2
      exact absurd (h1 ▸ List.mem_cons_self c cs) ha
    | cons x xs =>
      simp only [List.cons_append] at h
      injection h with h1 h2
      have ha2 : '@' ∉ cs := fun h3 => ha (List.mem_cons_of_mem c h3)
      have hu2 : '@' ∉ xs := fun h3 => hu (List.mem_cons_of_mem x h3)
      obtain ⟨e1, e2⟩ := ih xs b v ha2 hu2 h2
      exact ⟨by rw [h1, e1], e2⟩

theorem takeWhile_no_at (a b : List Char) (ha : '@' ∉ a) :
    (a ++ '@' :: b).takeWhile (fun c => c != '@') = a := by
  induction a with
  | nil => simp [List.takeWhile]
  | cons c cs ih =>
    have hc : c ≠ '@' := fun h => ha (h ▸ List.mem_cons_self c cs)
    have ha2 : '@' ∉ cs := fun h3 => ha (List.mem_cons_of_mem c h3)
    simp only [List.cons_append, List.takeWhile_cons]
    rw [if_pos (by simpa using hc)]
    rw [ih ha2]

theorem not_mem_of_count_eq_zero_at (x : List Char) (h : x.count '@' = 0) : '@' ∉ x :=
  List.count_eq_zero.mp h

theorem marker_iff_ends (g l : List Char) (hg : '@' ∉ g) (h1 : l.count '@' = 1) :
    containsL (g ++ ['@']) l = true ↔
      endsWithL g (l.takeWhile (fun c => c != '@')) = true := by
  obtain ⟨a, b, hab, ha, hb⟩ := count_at_one_decomp l h1
  subst hab
  rw [takeWhile_no_at a b ha]
  constructor
  · intro hc
    obtain ⟨x, y, hxy⟩ := (containsL_iff _ _).mp hc
    have hxy2 : (x ++ g) ++ '@' :: y = a ++ '@' :: b := by
      rw [← hxy]
      simp
    have hcount : (x ++ g).count '@' = 0 ∧ y.count '@' = 0 := by
      have hc1 := congrArg (List.count '@') hxy2
      rw [h1] at hc1
      have hga : g.count '@' = 0 := List.count_eq_zero.mpr hg
      simp only [List.count_append, List.count_cons, beq_self_eq_true, if_true] at hc1
      simp only [List.count_append]
      omega
    have hxg : '@' ∉ x ++ g := not_mem_of_count_eq_zero_at _ hcount.1
    obtain ⟨e1, _⟩ := at_decomp_unique (x ++ g) a y b hxg ha hxy2
    exact (endsWithL_iff _ _).mpr ⟨x, e1⟩
  · intro hends
    obtain ⟨x, hx⟩ := (endsWithL_iff _ _).mp hends
    refine (containsL_iff _ _).mpr ⟨x, b, ?_⟩
    rw [← hx]
    simp

theorem any_marker_iff (l : List Char) (h1 : l.count '@' = 1) :
    (genericMarkers.any (fun x => containsL x.data l)) = true ↔
      ∃ g ∈ genericLocals, endsWithL g.data (l.takeWhile (fun c => c != '@')) = true := by
  rw [List.any_eq_true]
  constructor
  · rintro ⟨m, hm, hcont⟩
    fin_cases hm
    · exact ⟨"info", by simp [genericLocals],
        (marker_iff_ends ("info".data) l (by decide) h1).mp hcont⟩
    · exact ⟨"contact", by simp [genericLocals],
        (marker_iff_ends ("contact".data) l (by decide) h1).mp hcont⟩
    · exact ⟨"admin", by simp [genericLocals],
        (marker_iff_ends ("admin".data) l (by decide) h1).mp hcont⟩
    · exact ⟨"support", by simp [genericLocals],
        (marker_iff_ends ("support".data) l (by decide) h1).mp hcont⟩
    · exact ⟨"hello", by simp [genericLocals],
        (marker_iff_ends ("hello".data) l (by decide) h1).mp hcont⟩
    · exact ⟨"sales", by simp [genericLocals],
        (marker_iff_ends ("sales".data) l (by decide) h1).mp hcont⟩
    · exact ⟨"press", by simp [genericLocals],
        (marker_iff_ends ("press".data) l (by decide) h1).mp hcont⟩
    · exact ⟨"team", by simp [genericLocals],
        (marker_iff_ends ("team".data) l (by decide) h1).mp hcont⟩
  · rintro ⟨g, hg, hends⟩
    fin_cases hg
    · exact ⟨"info@", by simp [genericMarkers],
        (marker_iff_ends ("info".data) l (by decide) h1).mpr hends⟩
    · exact ⟨"contact@", by simp [genericMarkers],
        (marker_iff_ends ("contact".data) l (by decide) h1).mpr hends⟩
    · exact ⟨"admin@", by simp [genericMarkers],
        (marker_iff_ends ("admin".data) l (by decide) h1).mpr hends⟩
    · exact ⟨"support@", by simp [genericMarkers],
        (marker_iff_ends ("support".data) l (by decide) h1).mpr hends⟩
    · exact ⟨"hello@", by simp [genericMarkers],
        (marker_iff_ends ("hello".data) l (by decide) h1).mpr hends⟩
    · exact ⟨"sales@", by simp [genericMarkers],
        (marker_iff_ends ("sales".data) l (by decide) h1).mpr hends⟩
    · exact ⟨"press@", by simp [genericMarkers],
        (marker_iff_ends ("press".data) l (by decide) h1).mpr hends⟩
    · exact ⟨"team@", by simp [genericMarkers],
        (marker_iff_ends ("team".data) l (by decide) h1).mpr hends⟩

theorem mem_extract_iff (cands : List String) (domain e : String) :
    e ∈ extract_emails_from_text cands domain ↔
      (∃ c ∈ cands, lowerStr c = e) ∧ keepEmail domain e = true := by
  rw [extract_emails_from_text, List.mem_dedup, List.mem_filter, List.mem_map]

/-! ### Helper lemmas: crawler and scheduler -/

theorem nodup_processPage (dom : String) (page : Page) (acc : List String)
    (h : acc.Nodup) : (processPage dom page acc).Nodup := by
  unfold processPage
  apply nodup_foldl_addEmail lowerStr
  apply nodup_foldl_addEmail (fun e => e)
  apply nodup_foldl_addEmail mailtoAddr
  exact h

theorem nodup_scrapeGo (fetch : String → FetchResult) (dom : String) :
    ∀ (ps acc : List String), acc.Nodup → (scrapeGo fetch dom acc ps).1.Nodup := by
  intro ps
  induction ps with
  | nil => intro acc h; exact h
  | cons p rest ih =>
    intro acc h
    rw [scrapeGo]
    cases fetch (urlOf dom p) with
    | resp status page =>
      dsimp only
      by_cases hs : status = 200
      · rw [if_pos hs]
        by_cases h3 : 3 ≤ (processPage dom page acc).length
        · simpa [h3] using nodup_processPage dom page acc h
        · simpa [h3] using ih (processPage dom page acc) (nodup_processPage dom page acc h)
      · simpa [hs] using ih acc h
    | timeoutExc => exact ih acc h
    | requestExc m => exact ih acc h
    | otherExc m => exact ih acc h

theorem domainOutcome_domain (scrape : String → ScrapeResult) (d : String) :
    (domainOutcome scrape d).domain = clean_domain d := by
  rw [domainOutcome]
  cases scrape (clean_domain d) with
  | ok emails => rfl
  | raised m => rfl

theorem processDomains_length (scrape : String → ScrapeResult) (elapsed : Nat → ℚ) (T : ℚ) :
    ∀ (l : List String) (idx : Nat),
      (processDomains scrape elapsed T idx l).length = l.length := by
  intro l
  induction l with
  | nil => intro idx; rfl
  | cons d rest ih =>
    intro idx
    rw [processDomains]
    by_cases hT : T < elapsed idx
    · simp [hT]
    · simp [hT, ih (idx + 1)]

theorem processDomains_get (scrape : String → ScrapeResult) (elapsed : Nat → ℚ) (T : ℚ) :
    ∀ (l : List String) (idx i : Nat) (hi : i < l.length),
      ∃ o, (processDomains scrape elapsed T idx l)[i]? = some o ∧
        o.domain = clean_domain l[i] ∧
        ((∃ k, idx ≤ k ∧ k ≤ idx + i ∧ T < elapsed k) →
          o.status = "timeout" ∧ o.error = some ("Timeout globale raggiunto")) := by
  intro l
  induction l with
  | nil =>
    intro idx i hi
    exact absurd hi (by simp)
  | cons d rest ih =>
    intro idx i hi
    rw [processDomains]
    by_cases hT : T < elapsed idx
    · rw [if_pos hT]
      refine ⟨timeoutOutcome (d :: rest)[i], ?_, rfl, fun _ => ⟨rfl, rfl⟩⟩
      rw [List.getElem?_map, List.getElem?_eq_getElem hi]
      rfl
    · rw [if_neg hT]
      cases i with
      | zero =>
        refine ⟨domainOutcome scrape d, by simp, ?_, ?_⟩
        · simpa using domainOutcome_domain scrape d
        · rintro ⟨k, hk1, hk2, hk3⟩
          have : k = idx := by omega
          subst this
          exact absurd hk3 hT
      | succ j =>
        have hj : j < rest.length := by simpa using hi
        obtain ⟨o, ho1, ho2, ho3⟩ := ih (idx + 1) j hj
        refine ⟨o, by simpa using ho1, by simpa using ho2, ?_⟩
        rintro ⟨k, hk1, hk2, hk3⟩
        refine ho3 ⟨k, ?_, by omega, hk3⟩
        rcases Nat.eq_or_lt_of_le hk1 with rfl | hlt
        · exact absurd hk3 hT
        · omega

/-! ### Claim C2 -/

/-- C2 counterexample: `clean_domain` is not idempotent.  On `"x//"` one
application removes one trailing slash giving `"x/"`, and a second
application removes another, so
`clean_domain (clean_domain "x//") ≠ clean_domain "x//"`. -/
theorem clean_domain_not_idempotent_cex :
    clean_domain ("x//") = "x/" ∧
    clean_domain (clean_domain ("x//")) = "x" ∧
    clean_domain (clean_domain ("x//")) ≠ clean_domain ("x//") := by
  refine ⟨by decide, by decide, by decide⟩

/-- C2 (amended): domain normalization is idempotent on every input whose
normalized form retains no further strippable layer — no surrounding
whitespace, no leading `http://`, `https://` or `www.`, and no trailing
slash.  (In general a second application can strip one further layer, as
the counterexample `"x//"` shows.) -/
theorem clean_domain_idempotent_on_settled (d : String)
    (h1 : pyStripL (clean_domain d).data = (clean_domain d).data)
    (h2 : ("http://".data).isPrefixOf (clean_domain d).data = false)
    (h3 : ("https://".data).isPrefixOf (clean_domain d).data = false)
    (h4 : ("www.".data).isPrefixOf (clean_domain d).data = false)
    (h5 : endsWithL (['/']) (clean_domain d).data = false) :
    clean_domain (clean_domain d) = clean_domain d := by
  conv_lhs => rw [clean_domain]
  rw [h1]
  simp only [subScheme, subWww, subSlash, h2, h3, h4, h5, Bool.false_eq_true, if_false]

/-- C2 witness: the amended idempotency applied to
`"https://www.example.com/"`, whose cleaned form `"example.com"` is
settled. -/
theorem clean_domain_idempotent_on_settled_witness :
    clean_domain (clean_domain ("https://www.example.com/")) =
      clean_domain ("https://www.example.com/") :=
  clean_domain_idempotent_on_settled ("https://www.example.com/")
    (by decide) (by decide) (by decide) (by decide) (by decide)

/-! ### Claim C3 -/

/-- C3 counterexample: the scheme stripping is case-sensitive, so
`"HTTPS://x.com"` does not lose its scheme, contradicting the claimed
case-insensitive behaviour. -/
theorem clean_domain_scheme_case_sensitive_cex :
    clean_domain ("HTTPS://x.com") = "HTTPS://x.com" ∧
    ("HTTPS://x.com" : String) ≠ "x.com" := by
  refine ⟨by decide, by decide⟩

/-- C3 (amended): for every input string, `clean_domain` first trims
surrounding whitespace, then strips one leading lower-case `http://` or
`https://` prefix (case-sensitively: an upper-case scheme is kept), then
strips one leading `www.`, then strips one trailing `/`, and never fails on
any input: it agrees everywhere with the claim-side pipeline
`cleanDomainSpec`, whose steps are spelled out as pattern matches. -/
theorem clean_domain_pipeline_eq_spec (s : String) :
    clean_domain s = cleanDomainSpec s := by
  rw [clean_domain, cleanDomainSpec, subScheme_eq_spec, subWww_eq_spec, subSlash_eq_spec]

/-! ### Claim C4 -/

/-- C4 counterexample: the source tests the generic markers as substrings
(`'info@' in email_lower`), not as an exact local-part match.  For domain
`example.com` the candidate `myinfo@other.org` is kept by
`extract_emails_from_text` (it contains the substring `info@`), while the
claim's condition rejects it: its local part `myinfo` is not one of the
generic local-parts and it contains neither the domain nor its first
label. -/
theorem extract_generic_substring_cex :
    ("myinfo@other.org" : String) ∈
        extract_emails_from_text (["myinfo@other.org"]) ("example.com") ∧
    claimedKeep ("example.com") ("myinfo@other.org") = false := by
  refine ⟨by decide, by decide⟩

/-- C4 (amended): for every domain and every list of regex candidates
(each of which, being a regex match, contains exactly one `@`), a candidate
is kept by `extract_emails_from_text` if and only if its lower-cased form
contains the full domain string, or contains the domain's first label
before its first dot, or its local part ends with one of the generic
local-parts `info`, `contact`, `admin`, `support`, `hello`, `sales`,
`press`, `team` (equivalently: it contains one of the substrings `info@`,
`contact@`, ...). -/
theorem extract_keep_iff_amended (cands : List String) (domain e : String)
    (hone : ∀ c ∈ cands, (lowerStr c).data.count '@' = 1) :
    e ∈ extract_emails_from_text cands domain ↔
      (∃ c ∈ cands, lowerStr c = e) ∧
      (containsL domain.data e.data = true ∨
       containsL (domainBase domain).data e.data = true ∨
       ∃ g ∈ genericLocals, endsWithL g.data ((localPartOf e).data) = true) := by
  rw [mem_extract_iff]
  constructor
  · rintro ⟨⟨c, hc, he⟩, hk⟩
    have h1 : e.data.count '@' = 1 := by
      rw [← he]
      exact hone c hc
    refine ⟨⟨c, hc, he⟩, ?_⟩
    rw [keepEmail] at hk
    simp only [Bool.or_eq_true] at hk
    rcases hk with (hd | hb) | hm
    · exact Or.inl hd
    · exact Or.inr (Or.inl hb)
    · right; right
      have h2 := (any_marker_iff e.data h1).mp hm
      simpa [localPartOf] using h2
  · rintro ⟨⟨c, hc, he⟩, hcond⟩
    have h1 : e.data.count '@' = 1 := by
      rw [← he]
      exact hone c hc
    refine ⟨⟨c, hc, he⟩, ?_⟩
    rw [keepEmail]
    simp only [Bool.or_eq_true]
    rcases hcond with hd | hb | hg
    · exact Or.inl (Or.inl hd)
    · exact Or.inl (Or.inr hb)
    · refine Or.inr ((any_marker_iff e.data h1).mpr ?_)
      simpa [localPartOf] using hg

/-- C4 witness: the amended equivalence instantiated for domain
`example.com` on the candidates `Sales@Example.com` and
`random@other.org`. -/
theorem extract_keep_iff_amended_witness :
    ("sales@example.com" : String) ∈
        extract_emails_from_text (["Sales@Example.com", "random@other.org"]) ("example.com") ↔
      (∃ c ∈ (["Sales@Example.com", "random@other.org"] : List String),
          lowerStr c = "sales@example.com") ∧
      (containsL ("example.com" : String).data ("sales@example.com" : String).data = true ∨
       containsL (domainBase ("example.com")).data ("sales@example.com" : String).data = true ∨
       ∃ g ∈ genericLocals,
         endsWithL g.data ((localPartOf ("sales@example.com")).data) = true) :=
  extract_keep_iff_amended (["Sales@Example.com", "random@other.org"]) ("example.com")
    ("sales@example.com") (by decide)

/-! ### Claim C5 -/

/-- C5: for every fetched page, every value of a `data-email` attribute is
added lower-cased to the result set unconditionally — it does not pass
through the relevance filter and its content is arbitrary. -/
theorem dataEmail_always_included (dom : String) (page : Page) (acc : List String)
    (d : String) (hd : d ∈ page.dataEmails) :
    lowerStr d ∈ processPage dom page acc := by
  rw [processPage]
  exact mem_foldl_addEmail_self lowerStr page.dataEmails _ d hd

/-- C5 witness: the value `NOISE@Else.org`, which the relevance filter
would reject for domain `example.com`, is nonetheless included
(lower-cased) because it comes from a `data-email` attribute. -/
theorem dataEmail_always_included_witness :
    lowerStr ("NOISE@Else.org") ∈ processPage ("example.com") c5Page [] ∧
    keepEmail ("example.com") (lowerStr ("NOISE@Else.org")) = false :=
  ⟨dataEmail_always_included ("example.com") c5Page [] ("NOISE@Else.org") (by decide),
   by decide⟩

/-! ### Claim C6 -/

/-- C6: once the accumulated e-mail set reaches the threshold of 3 after
processing a path's 200 response, the path loop stops: the result is
exactly the set accumulated so far and the trace of fetched paths ends at
this path, so no further candidate path is fetched for the domain. -/
theorem early_stop_no_further_paths (fetch : String → FetchResult) (dom p : String)
    (rest acc : List String) (page : Page)
    (hf : fetch (urlOf dom p) = FetchResult.resp 200 page)
    (h3 : 3 ≤ (processPage dom page acc).length) :
    scrapeGo fetch dom acc (p :: rest) = (processPage dom page acc, [p]) := by
  rw [scrapeGo, hf]
  dsimp only
  rw [if_pos rfl, if_pos h3]

/-- C6 witness: under `c6Fetch` the homepage of `x.com` alone yields three
addresses, so the second candidate path `/contatti` is never fetched: the
trace of fetched paths is `[""]`. -/
theorem early_stop_no_further_paths_witness :
    scrapeGo c6Fetch ("x.com") [] ("" :: ["/contatti"]) =
      (processPage ("x.com") c6Page [], [""]) ∧
    processPage ("x.com") c6Page [] = ["a@x.com", "b@x.com", "c@x.com"] :=
  ⟨early_stop_no_further_paths c6Fetch ("x.com") ("") (["/contatti"]) [] c6Page
      (by decide) (by decide),
   by decide⟩

/-! ### Claim C7 -/

/-- C7: a failure while fetching one candidate path — a timeout, a
transport error, any other exception, or a non-200 status — is absorbed
locally: the loop's result is exactly the result of continuing with the
remaining paths from the same accumulated set, so the failing path
contributes zero addresses and does not prevent or alter what the other
paths contribute.  (`scrapeGo` is a total function: the model has no
failure exit at all, mirroring the source's catch-all `except` clauses.) -/
theorem path_failure_local (fetch : String → FetchResult) (dom p : String)
    (rest acc : List String)
    (hf : isFailure (fetch (urlOf dom p)) = true) :
    scrapeGo fetch dom acc (p :: rest) =
      ((scrapeGo fetch dom acc rest).1, p :: (scrapeGo fetch dom acc rest).2) := by
  rw [scrapeGo]
  cases hfr : fetch (urlOf dom p) with
  | resp status page =>
    have hst : ¬ status = 200 := by
      rw [hfr] at hf
      simpa [isFailure] using hf
    dsimp only
    rw [if_neg hst]
  | timeoutExc => rfl
  | requestExc m => rfl
  | otherExc m => rfl

/-- C7 witness: with every request timing out, the failure on the first
path leaves the crawl of the remaining path untouched. -/
theorem path_failure_local_witness :
    scrapeGo c7Fetch ("x.com") [] ("" :: ["/contatti"]) =
      ((scrapeGo c7Fetch ("x.com") [] (["/contatti"])).1,
        "" :: (scrapeGo c7Fetch ("x.com") [] (["/contatti"])).2) :=
  path_failure_local c7Fetch ("x.com") ("") (["/contatti"]) [] (by decide)

/-! ### Claim C1 -/

/-- C1: for every request whose domain list passes validation (non-empty
and within the configured maximum) and for every value of the global
deadline `T`, the batch endpoint returns the loop's outcome list; that list
has exactly one entry per requested domain, in input order (entry `i`
carries the cleaned form of domain `i`); and as soon as the deadline check
has fired at or before position `i` — that is, some check index `k ≤ i`
read a clock value above `T` — entry `i` has status `timeout` with the
explanatory error message, the domain current at the firing check
included. -/
theorem find_emails_outcome_per_domain (scrape : String → ScrapeResult)
    (elapsed : Nat → ℚ) (T : ℚ) (domains : List String)
    (hne : domains ≠ []) (hmax : domains.length ≤ MAX_DOMAINS_PER_REQUEST) :
    (find_emails scrape elapsed T domains).1 =
      BatchResponse.ok
        { results := processDomains scrape elapsed T 0 domains,
          total_emails := totalEmails (processDomains scrape elapsed T 0 domains),
          processed := (processDomains scrape elapsed T 0 domains).length } ∧
    (processDomains scrape elapsed T 0 domains).length = domains.length ∧
    ∀ i (hi : i < domains.length),
      ∃ o, (processDomains scrape elapsed T 0 domains)[i]? = some o ∧
        o.domain = clean_domain domains[i] ∧
        ((∃ k, k ≤ i ∧ T < elapsed k) →
          o.status = "timeout" ∧ o.error = some ("Timeout globale raggiunto")) := by
  have hie : domains.isEmpty = false := by
    cases domains with
    | nil => exact absurd rfl hne
    | cons a l => rfl
  have hlt : ¬ MAX_DOMAINS_PER_REQUEST < domains.length := Nat.not_lt.mpr hmax
  refine ⟨?_, processDomains_length scrape elapsed T domains 0, ?_⟩
  · rw [find_emails, hie]
    simp [hlt]
  · intro i hi
    obtain ⟨o, ho1, ho2, ho3⟩ := processDomains_get scrape elapsed T domains 0 i hi
    refine ⟨o, ho1, ho2, ?_⟩
    rintro ⟨k, hk1, hk2⟩
    exact ho3 ⟨k, Nat.zero_le k, by omega, hk2⟩

/-- C1 witness: two domains under a deadline of 0 seconds with the clock
reading `n` at check `n`: the first domain is processed, the second is
reported as a timeout, and the result still has one entry per domain. -/
theorem find_emails_outcome_per_domain_witness :
    (find_emails w1Scrape w1Elapsed 0 (["a.com", "b.com"])).1 =
      BatchResponse.ok
        { results := processDomains w1Scrape w1Elapsed 0 0 (["a.com", "b.com"]),
          total_emails := totalEmails (processDomains w1Scrape w1Elapsed 0 0 (["a.com", "b.com"])),
          processed := (processDomains w1Scrape w1Elapsed 0 0 (["a.com", "b.com"])).length } ∧
    (processDomains w1Scrape w1Elapsed 0 0 (["a.com", "b.com"])).length =
      (["a.com", "b.com"] : List String).length ∧
    ∀ i (hi : i < (["a.com", "b.com"] : List String).length),
      ∃ o, (processDomains w1Scrape w1Elapsed 0 0 (["a.com", "b.com"]))[i]? = some o ∧
        o.domain = clean_domain (["a.com", "b.com"] : List String)[i] ∧
        ((∃ k, k ≤ i ∧ (0 : ℚ) < w1Elapsed k) →
          o.status = "timeout" ∧ o.error = some ("Timeout globale raggiunto")) :=
  find_emails_outcome_per_domain w1Scrape w1Elapsed 0 (["a.com", "b.com"])
    (by decide) (by decide)

/-! ### Claim C8 -/

/-- C8 counterexample: the empty-list rejection does not include the
received count or the configured maximum: its payload carries only the
error message, with `received` and `max_allowed` absent, contradicting the
claim that both rejection payloads include them. -/
theorem empty_request_payload_cex :
    find_emails w1Scrape w1Elapsed 28 [] =
      (BatchResponse.clientError { error := "Nessun dominio fornito" } 400, []) ∧
    ({ error := "Nessun dominio fornito" } : ErrorPayload).received = none ∧
    ({ error := "Nessun dominio fornito" } : ErrorPayload).max_allowed = none := by
  refine ⟨rfl, rfl, rfl⟩

/-- C8 (amended): an empty domain list is rejected with a 400 client error
carrying only an error message, and a list longer than the configured
maximum is rejected with a 400 client error whose payload includes the
received domain count and the configured maximum; in both cases the
rejection happens before any crawling: the trace of `scrape_website`
invocations is empty. -/
theorem request_validation_amended (scrape : String → ScrapeResult)
    (elapsed : Nat → ℚ) (T : ℚ) (domains : List String) :
    (domains = [] →
      find_emails scrape elapsed T domains =
        (BatchResponse.clientError { error := "Nessun dominio fornito" } 400, [])) ∧
    (domains ≠ [] → MAX_DOMAINS_PER_REQUEST < domains.length →
      find_emails scrape elapsed T domains =
        (BatchResponse.clientError
          { error := "Troppi domini. Massimo 10 per richiesta.",
            received := some domains.length,
            max_allowed := some MAX_DOMAINS_PER_REQUEST,
            suggestion := some ("Dividi la lista in più batch dal frontend") } 400, [])) := by
  constructor
  · rintro rfl
    rfl
  · intro hne hlen
    have hie : domains.isEmpty = false := by
      cases domains with
      | nil => exact absurd rfl hne
      | cons a l => rfl
    rw [find_emails, hie]
    simp [hlen]

/-- C8 witness: a request with eleven domains is rejected with the payload
carrying the received count 11 and the maximum 10, and no crawl occurs. -/
theorem request_validation_amended_witness :
    find_emails w1Scrape w1Elapsed 28 w8Domains =
      (BatchResponse.clientError
        { error := "Troppi domini. Massimo 10 per richiesta.",
          received := some w8Domains.length,
          max_allowed := some MAX_DOMAINS_PER_REQUEST,
          suggestion := some ("Dividi la lista in più batch dal frontend") } 400, []) :=
  (request_validation_amended w1Scrape w1Elapsed 28 w8Domains).2 (by decide) (by decide)

/-! ### Claim C9 -/

/-- C9 counterexample: the sentinel row of a zero-e-mail result carries the
result's status string (`"empty"` here), not a zero, and the CSV has no
count column at all — its rows are `[domain, email, status]` — so the
claimed `count and status of zero` does not hold. -/
theorem csv_zero_email_row_cex :
    download_csv ([wCsv]) =
      [["Dominio", "Email", "Status"], ["x.com", "Nessuna email trovata", "empty"]] ∧
    ("empty" : String) ≠ "0" ∧
    ("0" : String) ∉ (["x.com", "Nessuna email trovata", "empty"] : List String) := by
  refine ⟨by decide, by decide, by decide⟩

/-- C9 (amended): the CSV export is a header row followed by the rows of
each result in order; a result with one or more e-mails yields one row per
(domain, e-mail) pair carrying the result's status, and a result with zero
e-mails yields exactly one row whose e-mail column holds the sentinel
`Nessuna email trovata` and whose status column carries the result's
status string (there is no count column). -/
theorem csv_rows_amended (results : List CsvResult) (r : CsvResult) :
    download_csv results =
      ["Dominio", "Email", "Status"] :: (results.map csvRowsFor).flatten ∧
    (r.emails.getD [] = [] →
      csvRowsFor r = [[r.domain, "Nessuna email trovata", r.status.getD ("unknown")]]) ∧
    (r.emails.getD [] ≠ [] →
      csvRowsFor r =
        (r.emails.getD []).map (fun e => [r.domain, e, r.status.getD ("unknown")])) := by
  refine ⟨rfl, ?_, ?_⟩
  · intro h
    rw [csvRowsFor]
    simp [h]
  · intro h
    rw [csvRowsFor]
    simp [h]

/-- C9 witness: the export of one zero-e-mail result is the header plus the
single sentinel row. -/
theorem csv_rows_amended_witness :
    download_csv ([wCsv]) =
      ["Dominio", "Email", "Status"] :: (([wCsv] : List CsvResult).map csvRowsFor).flatten ∧
    csvRowsFor wCsv = [[wCsv.domain, "Nessuna email trovata", wCsv.status.getD ("unknown")]] :=
  ⟨(csv_rows_amended ([wCsv]) wCsv).1, (csv_rows_amended ([wCsv]) wCsv).2.1 (by decide)⟩

/-! ### Claim C10 -/

/-- C10: every outcome in the batch result list — success, empty, error or
timeout — has `count` equal to the length of its e-mail list; its e-mail
list contains no duplicates (given that the scrape oracle returns
duplicate-free lists, as `scrape_website` does: see `nodup_scrapeGo`); and
its status is `success` exactly when the list is non-empty and `empty`
exactly when it is empty, unless the entry is an `error` or `timeout`
entry. -/
theorem outcome_invariants (scrape : String → ScrapeResult) (elapsed : Nat → ℚ) (T : ℚ)
    (idx : Nat) (domains : List String) (o : Outcome)
    (hnd : ∀ d s, scrape d = ScrapeResult.ok s → s.Nodup)
    (ho : o ∈ processDomains scrape elapsed T idx domains) :
    o.count = o.emails.length ∧ o.emails.Nodup ∧
      ((o.status = "success" ∧ o.emails ≠ []) ∨ (o.status = "empty" ∧ o.emails = []) ∨
        o.status = "error" ∨ o.status = "timeout") := by
  induction domains generalizing idx with
  | nil => simp [processDomains] at ho
  | cons d rest ih =>
    rw [processDomains] at ho
    by_cases hT : T < elapsed idx
    · rw [if_pos hT] at ho
      obtain ⟨x, hx, rfl⟩ := List.mem_map.mp ho
      exact ⟨rfl, List.nodup_nil, Or.inr (Or.inr (Or.inr rfl))⟩
    · rw [if_neg hT] at ho
      rcases List.mem_cons.mp ho with rfl | ho2
      · rw [domainOutcome]
        cases hs : scrape (clean_domain d) with
        | ok s =>
          have hnods := hnd _ _ hs
          refine ⟨rfl, hnods, ?_⟩
          by_cases he : s.isEmpty
          · right; left
            have hsnil : s = [] := List.isEmpty_iff.mp he
            simp [successOutcome, he, hsnil]
          · left
            have hsne : s ≠ [] := by simpa [List.isEmpty_iff] using he
            simp [successOutcome, he, hsne]
        | raised m => exact ⟨rfl, List.nodup_nil, Or.inr (Or.inr (Or.inl rfl))⟩
      · exact ih (idx + 1) ho2

/-- C10 witness: the invariants checked on the outcome recorded for `b.co`
when the oracle finds the single address `a@b.co`. -/
theorem outcome_invariants_witness :
    w10Outcome.count = w10Outcome.emails.length ∧ w10Outcome.emails.Nodup ∧
      ((w10Outcome.status = "success" ∧ w10Outcome.emails ≠ []) ∨
        (w10Outcome.status = "empty" ∧ w10Outcome.emails = []) ∨
        w10Outcome.status = "error" ∨ w10Outcome.status = "timeout") :=
  outcome_invariants w10Scrape w10Elapsed 28 0 (["b.co"]) w10Outcome
    (by
      intro d s h
      injection h with h2
      rw [← h2]
      decide)
    (by decide)

end EmailFinder
